import Mathlib

/-!
Verification of the sampleSorter command-line utility.

A shallow embedding of `main.go` of mattetti/sampleSorter.  Paths and other
Go strings are modelled as their character sequences (`List Char`), the
filesystem touched by the copier as an association list of file contents
together with a list of created directories, and fallible OS calls either as
lookups in that state or as boolean environment oracles.  Go panics are
modelled with `Except.error` and `os.Exit` with a dedicated outcome
constructor.
-/

set_option linter.unusedVariables false

namespace SampleSorter

/-- Go strings (paths, keywords, filenames) as character sequences. -/
abbrev FPath := List Char

namespace strings

/-- `strings.ToLower`, restricted to the ASCII case mapping used by the
filenames and keywords in play. -/
def ToLower (s : FPath) : FPath := s.map Char.toLower

/-- `strings.Contains(s, sub)`: `sub` occurs contiguously inside `s`. -/
def Contains (s sub : FPath) : Bool := s.tails.any (fun t => sub.isPrefixOf t)

/-- `strings.Replace(s, old, new, 1)` specialised to the single-character
pattern (the tilde) used by the source: replace the first occurrence. -/
def ReplaceFirstChar : FPath → Char → FPath → FPath
  | [], _, _ => []
  | c :: rest, old, new =>
      if c = old then new ++ rest else c :: ReplaceFirstChar rest old new

end strings

namespace filepath

/-- `path/filepath.Base` on unix paths: strip trailing separators, keep the
last element; `"."` for the empty path, `"/"` when only separators remain. -/
def Base (p : FPath) : FPath :=
  if p = [] then ['.']
  else
    let q := (p.reverse.dropWhile (fun c => c = '/')).reverse
    let r := (q.reverse.takeWhile (fun c => c ≠ '/')).reverse
    if r = [] then ['/'] else r

/-- Helper for `Ext`: scan the reversed path, accumulating the suffix until a
dot (include it) or a separator (no extension) is found. -/
def extGo : List Char → List Char → List Char
  | [], _ => []
  | c :: rest, acc =>
      if c = '/' then []
      else if c = '.' then c :: acc
      else extGo rest (c :: acc)

/-- `path/filepath.Ext`: the suffix starting at the final dot of the last
path element, empty when there is none. -/
def Ext (p : FPath) : FPath := extGo p.reverse []

/-- `path/filepath.Join` of two nonempty, already clean elements. -/
def Join (a b : FPath) : FPath := a ++ '/' :: b

end filepath

/-! ## Discovery: visit and filepath.Walk -/

/-- The `visit` walk function of the source.  It receives the accumulated
match list (the source uses the package-level `matchingPaths` slice), the
visited path and the `os.FileInfo.IsDir` answer, and returns the new match
list.  Exactly as in the source, the extension allow-list is checked on the
lower-cased base name and the error argument of the walk function plays no
role here (see `walkEvents` for how that argument is handled). -/
def visit (flagKeyword : FPath) (acc : List FPath) (path : FPath) (isDir : Bool) : List FPath :=
  if isDir then acc
  else
    let filename := strings.ToLower (filepath.Base path)
    let e := filepath.Ext filename
    if e ≠ ".wav".toList ∧ e ≠ ".aiff".toList ∧ e ≠ ".aif".toList then acc
    else if strings.Contains filename flagKeyword then acc ++ [path]
    else acc

/-- One invocation of the walk function by `filepath.Walk`: the visited path,
`some isDir` when the `lstat` of the entry succeeded (`none` models the nil
`os.FileInfo` that `filepath.Walk` passes after a failed `lstat`), and the
error argument `filepath.Walk` hands to the walk function (for a directory
entry, a failed `readDirNames` shows up here). -/
structure WalkEvent where
  path : FPath
  info : Option Bool
  err : Option String
deriving DecidableEq

/-- The Go runtime message for calling a method on a nil interface value. -/
def nilPanicMsg : String := "runtime error: invalid memory address or nil pointer dereference"

/-- `filepath.Walk(root, visit)` over the sequence of walk-function
invocations the walk produces.  When the entry's `lstat` failed, `visit`
immediately calls `fi.IsDir()` on the nil `os.FileInfo`, which panics
(`Except.error`).  Otherwise `visit` runs; it always returns `nil`, so the
walk never stops early and the final error returned by `filepath.Walk` is
`nil` (the `none` in the result pair). -/
def walkEvents (flagKeyword : FPath) : List WalkEvent → List FPath → Except String (List FPath × Option String)
  | [], acc => Except.ok (acc, none)
  | e :: es, acc =>
      match e.info with
      | none => Except.error nilPanicMsg
      | some isDir => walkEvents flagKeyword es (visit flagKeyword acc e.path isDir)

/-- `findMatchingFiles(src, keyword)`: empty-source check, absolute-path
resolution (`absErr` says whether `filepath.Abs` fails), then the walk. -/
def findMatchingFiles (src : FPath) (absErr : Bool) (flagKeyword : FPath)
    (evs : List WalkEvent) : Except String (List FPath × Option String) :=
  if src = [] then Except.ok ([], some "missing source folder location")
  else if absErr then Except.ok ([], some "could not get the absolute path of the source")
  else walkEvents flagKeyword evs []

/-! ## The filesystem state and the copy operations -/

/-- The destination filesystem as the copier sees it: created directories and
file contents (bytes). -/
structure FS where
  dirs : List FPath
  files : List (FPath × List Nat)
deriving DecidableEq

/-- Environment oracles for the OS calls whose failure does not depend on the
modelled state: `os.MkdirAll` and `os.Create`. -/
structure Env where
  mkdirFails : FPath → Bool
  createFails : FPath → Bool

/-- Content of a file in the association list, `none` when absent. -/
def lookupFile : List (FPath × List Nat) → FPath → Option (List Nat)
  | [], _ => none
  | (q, v) :: rest, p => if q = p then some v else lookupFile rest p

/-- Create or overwrite a file's content in the association list. -/
def writeFile : List (FPath × List Nat) → FPath → List Nat → List (FPath × List Nat)
  | [], p, v => [(p, v)]
  | (q, w) :: rest, p, v =>
      if q = p then (q, v) :: rest else (q, w) :: writeFile rest p v

/-- `os.MkdirAll(p, 0777)`. -/
def mkdirAll (env : Env) (fs : FS) (p : FPath) : FS × Option String :=
  if env.mkdirFails p then (fs, some "mkdir failed")
  else ({ fs with dirs := p :: fs.dirs }, none)

/-- `copyFileContents(src, dst)`: dry-run short-circuit, `os.Open` of the
source, `os.Create` of the destination (truncating any existing file),
`io.Copy` of the source bytes read after the truncation, `Sync`. -/
def copyFileContents (flagDryRun : Bool) (env : Env) (fs : FS) (src dst : FPath) : FS × Option String :=
  if flagDryRun then (fs, none)
  else
    match lookupFile fs.files src with
    | none => (fs, some "open failed")
    | some _ =>
      if env.createFails dst then (fs, some "create failed")
      else
        let fs1 : FS := { fs with files := writeFile fs.files dst [] }
        match lookupFile fs1.files src with
        | none => (fs1, some "read failed")
        | some content => ({ fs1 with files := writeFile fs1.files dst content }, none)

/-- The per-file loop of `copyFilesToGroup`: each source is copied to a
same-named file in the subfolder; a failed copy is logged and the loop
continues.  Besides the final state, the list of attempts
`(src, dest, result)` in loop order is returned. -/
def copyLoop (flagDryRun : Bool) (env : Env) (subFolderPath : FPath) :
    List FPath → FS → FS × List (FPath × FPath × Option String)
  | [], fs => (fs, [])
  | src :: rest, fs =>
      let dest := filepath.Join subFolderPath (filepath.Base src)
      let step := copyFileContents flagDryRun env fs src dest
      let tail := copyLoop flagDryRun env subFolderPath rest step.1
      (tail.1, (src, dest, step.2) :: tail.2)

/-- `copyFilesToGroup(srcPaths, destPath, idx)`: build the `group_<idx>`
subfolder path, call `os.MkdirAll` discarding its error exactly as the
source does, run the per-file loop, and return `nil`. -/
def copyFilesToGroup (flagDryRun : Bool) (env : Env) (fs : FS) (srcPaths : List FPath)
    (destPath : FPath) (idx : Nat) : FS × List (FPath × FPath × Option String) × Option String :=
  let subFolderPath := filepath.Join destPath (("group_" ++ toString idx).toList)
  let fs0 := (mkdirAll env fs subFolderPath).1
  let r := copyLoop flagDryRun env subFolderPath srcPaths fs0
  (r.1, r.2, none)

/-! ## The grouping loop of main -/

/-- The batches main would flush, without the copying: the state of the
grouping loop is the enumeration index `i`, the 1-based `groupIdx`, the
per-group counter `fileIdx` and the buffered `files`; `acc` collects the
batches flushed so far together with their group index.  The loop breaks as
soon as `i` reaches `flagMax` and flushes a full buffer when `fileIdx`
reaches the literal `128` of the source. -/
def copierGo (flagMax : Int) : List FPath → Nat → Nat → Nat → List FPath →
    List (Nat × List FPath) → List (Nat × List FPath)
  | [], _, groupIdx, _, files, acc =>
      if files.length > 0 then acc ++ [(groupIdx, files)] else acc
  | fp :: rest, i, groupIdx, fileIdx, files, acc =>
      if (i : Int) ≥ flagMax then
        if files.length > 0 then acc ++ [(groupIdx, files)] else acc
      else if fileIdx ≥ 128 then
        copierGo flagMax rest (i + 1) (groupIdx + 1) 1 [fp] (acc ++ [(groupIdx, files)])
      else
        copierGo flagMax rest (i + 1) groupIdx (fileIdx + 1) (files ++ [fp]) acc

/-- The grouping performed by main on the match list.  `flagGroupSize` is
read from the flags but — exactly as in the source — never consulted: the
flush check of the loop compares the per-group counter against the literal
`128`. -/
def runCopier (flagGroupSize : Int) (flagMax : Int) (matchingPaths : List FPath) :
    List (Nat × List FPath) :=
  copierGo flagMax matchingPaths 0 1 0 [] []

/-- What one `copyFilesToGroup` call produced: its group index, the per-file
attempts, and the returned error that main's logging branch inspects. -/
structure BatchRec where
  groupIdx : Nat
  attempts : List (FPath × FPath × Option String)
  copyErr : Option String
deriving DecidableEq

/-- Execute a list of batches in order with `copyFilesToGroup`, exactly as
main does: the returned error is recorded (main only logs it) and the run
continues with the next batch. -/
def runBatches (flagDryRun : Bool) (env : Env) (destPath : FPath) :
    List (Nat × List FPath) → FS → FS × List BatchRec
  | [], fs => (fs, [])
  | (idx, srcs) :: rest, fs =>
      let r := copyFilesToGroup flagDryRun env fs srcs destPath idx
      let tail := runBatches flagDryRun env destPath rest r.1
      (tail.1, ⟨idx, r.2.1, r.2.2⟩ :: tail.2)

/-- The grouping-and-copy loop of `main`, flushing each full batch in place
(same state as `copierGo`, now threading the filesystem), followed by the
left-over flush. -/
def mainGo (flagDryRun : Bool) (env : Env) (flagMax : Int) (destPath : FPath) :
    List FPath → Nat → Nat → Nat → List FPath → FS → FS × List BatchRec
  | [], _, groupIdx, _, files, fs =>
      if files.length > 0 then
        let r := copyFilesToGroup flagDryRun env fs files destPath groupIdx
        (r.1, [⟨groupIdx, r.2.1, r.2.2⟩])
      else (fs, [])
  | fp :: rest, i, groupIdx, fileIdx, files, fs =>
      if (i : Int) ≥ flagMax then
        if files.length > 0 then
          let r := copyFilesToGroup flagDryRun env fs files destPath groupIdx
          (r.1, [⟨groupIdx, r.2.1, r.2.2⟩])
        else (fs, [])
      else if fileIdx ≥ 128 then
        let r := copyFilesToGroup flagDryRun env fs files destPath groupIdx
        let tail := mainGo flagDryRun env flagMax destPath rest (i + 1) (groupIdx + 1) 1 [fp] r.1
        (tail.1, ⟨groupIdx, r.2.1, r.2.2⟩ :: tail.2)
      else mainGo flagDryRun env flagMax destPath rest (i + 1) groupIdx (fileIdx + 1) (files ++ [fp]) fs

/-- The whole grouped-copy phase of main on a discovered match list. -/
def mainRun (flagDryRun : Bool) (env : Env) (flagMax : Int) (destPath : FPath)
    (matchingPaths : List FPath) (fs : FS) : FS × List BatchRec :=
  mainGo flagDryRun env flagMax destPath matchingPaths 0 1 0 [] fs

/-! ## Startup: tilde expansion and the whole program -/

/-- The Go runtime message for an out-of-range string slice. -/
def slicePanicMsg : String := "runtime error: slice bounds out of range"

/-- The tilde expansion main performs on a path: the `p[:2]` slice panics
when the path is shorter than two bytes; otherwise a leading tilde-slash is
expanded with `strings.Replace(p, tilde, home, 1)`. -/
def expandTilde (home p : FPath) : Except String FPath :=
  if p.length < 2 then Except.error slicePanicMsg
  else if p.take 2 = ['~', '/'] then Except.ok (strings.ReplaceFirstChar p '~' home)
  else Except.ok p

/-- How a run of the program ends: a runtime panic, an `os.Exit(1)`, or a
normal completion with the final filesystem and the per-batch records.  The
panic and exit outcomes carry the filesystem as it was at that moment. -/
inductive Outcome where
  | panicked : String → FS → Outcome
  | exited : FS → Outcome
  | completed : FS → List BatchRec → Outcome
deriving DecidableEq

/-- `main`, from the required-flag checks through keyword lower-casing,
destination defaulting, tilde expansion, discovery and the grouped copy. -/
def programFull (home : FPath) (flagSource flagKeyword flagDestination : FPath)
    (absErr : Bool) (evs : List WalkEvent) (flagDryRun : Bool) (env : Env)
    (flagMax : Int) (fs : FS) : Outcome :=
  if flagSource = [] then Outcome.exited fs
  else if flagKeyword = [] then Outcome.exited fs
  else
    let keyword := strings.ToLower flagKeyword
    let destArg := if flagDestination = [] then home else flagDestination
    match expandTilde home flagSource with
    | Except.error e => Outcome.panicked e fs
    | Except.ok sourcePath =>
      match expandTilde home destArg with
      | Except.error e => Outcome.panicked e fs
      | Except.ok destPath =>
        match findMatchingFiles sourcePath absErr keyword evs with
        | Except.error e => Outcome.panicked e fs
        | Except.ok (_, some _) => Outcome.exited fs
        | Except.ok (matchingPaths, none) =>
          let r := mainRun flagDryRun env flagMax destPath matchingPaths fs
          Outcome.completed r.1 r.2

/-! ## Derived descriptions used to state the grouping properties -/

/-- Consecutive runs of 128 — the literal flush threshold of the source's
grouping loop. -/
def chunk128 : List FPath → List (List FPath)
  | [] => []
  | fp :: rest => ((fp :: rest).take 128) :: chunk128 ((fp :: rest).drop 128)
termination_by l => l.length
decreasing_by simp; omega

/-- Pair a list of batches with consecutive group indices starting at `g`. -/
def indexFrom : Nat → List (List FPath) → List (Nat × List FPath)
  | _, [] => []
  | g, c :: cs => (g, c) :: indexFrom (g + 1) cs

/-! ## Lemmas about the chunk description -/

theorem chunk128_eq_nil : chunk128 [] = [] := by
  simp [chunk128]

theorem chunk128_cons (fp : FPath) (rest : List FPath) :
    chunk128 (fp :: rest) = ((fp :: rest).take 128) :: chunk128 ((fp :: rest).drop 128) := by
  rw [chunk128]

theorem chunk128_short (l : List FPath) (h : l.length ≤ 128) :
    chunk128 l = if l = [] then [] else [l] := by
  cases l with
  | nil => simp [chunk128_eq_nil]
  | cons fp rest =>
    rw [chunk128_cons, List.take_of_length_le h, List.drop_of_length_le h, chunk128_eq_nil]
    simp

theorem chunk128_ne_nil (l : List FPath) (h : l ≠ []) : chunk128 l ≠ [] := by
  cases l with
  | nil => exact absurd rfl h
  | cons fp rest => rw [chunk128_cons]; exact List.cons_ne_nil _ _

theorem chunk128_full_head (files : List FPath) (x : FPath) (xs : List FPath)
    (h : files.length = 128) :
    chunk128 (files ++ x :: xs) = files :: chunk128 (x :: xs) := by
  cases files with
  | nil => simp at h
  | cons f0 ftl =>
    rw [show (f0 :: ftl) ++ x :: xs = f0 :: (ftl ++ x :: xs) from rfl, chunk128_cons]
    rw [show f0 :: (ftl ++ x :: xs) = (f0 :: ftl) ++ x :: xs from rfl]
    rw [List.take_left' h, List.drop_left' h]

theorem chunk128_flatten : ∀ l : List FPath, (chunk128 l).flatten = l
  | [] => by simp [chunk128_eq_nil]
  | fp :: rest => by
    rw [chunk128_cons, List.flatten_cons, chunk128_flatten ((fp :: rest).drop 128)]
    exact List.take_append_drop 128 (fp :: rest)
termination_by l => l.length
decreasing_by simp; omega

theorem chunk128_length : ∀ l : List FPath, (chunk128 l).length = (l.length + 127) / 128
  | [] => by simp [chunk128_eq_nil]
  | fp :: rest => by
    rw [chunk128_cons]
    rw [List.length_cons, chunk128_length ((fp :: rest).drop 128)]
    simp only [List.length_drop, List.length_cons]
    omega
termination_by l => l.length
decreasing_by simp; omega

theorem chunk128_dropLast : ∀ l : List FPath, ∀ c ∈ (chunk128 l).dropLast, c.length = 128
  | [] => by simp [chunk128_eq_nil]
  | fp :: rest => by
    intro c hc
    rw [chunk128_cons] at hc
    by_cases hlen : (fp :: rest).length ≤ 128
    · rw [List.drop_of_length_le hlen, chunk128_eq_nil] at hc
      simp at hc
    · have hd : (fp :: rest).drop 128 ≠ [] := by
        intro h
        have := congrArg List.length h
        simp only [List.length_drop, List.length_cons, List.length_nil] at this
        simp only [List.length_cons] at hlen
        omega
      obtain ⟨d, ds, hds⟩ := List.exists_cons_of_ne_nil (chunk128_ne_nil _ hd)
      rw [hds, List.dropLast_cons₂] at hc
      rcases List.mem_cons.mp hc with hc | hc
      · subst hc
        simp only [List.length_take, List.length_cons]
        simp only [List.length_cons] at hlen
        omega
      · rw [← hds] at hc
        exact chunk128_dropLast ((fp :: rest).drop 128) c hc
termination_by l => l.length
decreasing_by simp; omega

theorem chunk128_getLast : ∀ l : List FPath, ∀ c : List FPath,
    (chunk128 l).getLast? = some c →
    c.length = if l.length % 128 = 0 then 128 else l.length % 128
  | [] => by intro c h; rw [chunk128_eq_nil] at h; simp at h
  | fp :: rest => by
    intro c h
    by_cases hlen : (fp :: rest).length ≤ 128
    · rw [chunk128_short _ hlen] at h
      simp only [if_neg (List.cons_ne_nil fp rest), List.getLast?_singleton,
        Option.some_inj] at h
      subst h
      simp only [List.length_cons] at hlen ⊢
      split
      · omega
      · omega
    · have hd : (fp :: rest).drop 128 ≠ [] := by
        intro hnil
        have := congrArg List.length hnil
        simp only [List.length_drop, List.length_cons, List.length_nil] at this
        simp only [List.length_cons] at hlen
        omega
      rw [chunk128_cons] at h
      obtain ⟨d, ds, hds⟩ := List.exists_cons_of_ne_nil (chunk128_ne_nil _ hd)
      rw [hds, List.getLast?_cons_cons, ← hds] at h
      have := chunk128_getLast ((fp :: rest).drop 128) c h
      simp only [List.length_drop, List.length_cons] at this
      simp only [List.length_cons] at hlen ⊢
      split at this <;> split <;> omega
termination_by l => l.length
decreasing_by simp; omega

/-! ## Lemmas about indexFrom -/

theorem indexFrom_map_snd : ∀ (cs : List (List FPath)) (g : Nat),
    (indexFrom g cs).map Prod.snd = cs
  | [], g => by simp [indexFrom]
  | c :: cs, g => by simp [indexFrom, indexFrom_map_snd cs (g + 1)]

theorem indexFrom_map_fst : ∀ (cs : List (List FPath)) (g : Nat),
    (indexFrom g cs).map Prod.fst = List.range' g cs.length
  | [], g => by simp [indexFrom]
  | c :: cs, g => by
    simp [indexFrom, indexFrom_map_fst cs (g + 1), List.range'_succ]

theorem indexFrom_dropLast : ∀ (cs : List (List FPath)) (g : Nat),
    (indexFrom g cs).dropLast = indexFrom g cs.dropLast
  | [], g => by simp [indexFrom]
  | [c], g => by simp [indexFrom]
  | c :: c' :: cs, g => by
    rw [show indexFrom g (c :: c' :: cs) = (g, c) :: indexFrom (g + 1) (c' :: cs) from rfl]
    rw [show indexFrom (g + 1) (c' :: cs) = (g + 1, c') :: indexFrom (g + 2) cs from rfl]
    rw [List.dropLast_cons₂, ← show indexFrom (g + 1) (c' :: cs) = (g + 1, c') :: indexFrom (g + 2) cs from rfl]
    rw [indexFrom_dropLast (c' :: cs) (g + 1), List.dropLast_cons₂]
    rfl

theorem indexFrom_getLast?_snd : ∀ (cs : List (List FPath)) (g : Nat),
    ((indexFrom g cs).getLast?).map Prod.snd = cs.getLast?
  | [], g => by simp [indexFrom]
  | [c], g => by simp [indexFrom]
  | c :: c' :: cs, g => by
    rw [show indexFrom g (c :: c' :: cs) = (g, c) :: (g + 1, c') :: indexFrom (g + 2) cs from rfl]
    rw [List.getLast?_cons_cons, List.getLast?_cons_cons]
    exact indexFrom_getLast?_snd (c' :: cs) (g + 1)

/-! ## The closed form of the grouping loop -/

theorem copierGo_append (M : Int) : ∀ (rest : List FPath) (i g fIdx : Nat)
    (files : List FPath) (acc : List (Nat × List FPath)),
    copierGo M rest i g fIdx files acc = acc ++ copierGo M rest i g fIdx files []
  | [], i, g, fIdx, files, acc => by
    by_cases h : files.length > 0 <;> simp [copierGo, h]
  | fp :: rest, i, g, fIdx, files, acc => by
    by_cases hi : (i : Int) ≥ M
    · by_cases h : files.length > 0 <;> simp [copierGo, hi, h]
    · by_cases hf : fIdx ≥ 128
      · simp only [copierGo, if_neg hi, if_pos hf]
        rw [copierGo_append M rest (i + 1) (g + 1) 1 [fp] (acc ++ [(g, files)]),
          copierGo_append M rest (i + 1) (g + 1) 1 [fp] ([] ++ [(g, files)])]
        simp [List.append_assoc]
      · simp only [copierGo, if_neg hi, if_neg hf]
        exact copierGo_append M rest (i + 1) g (fIdx + 1) (files ++ [fp]) acc

theorem copierFlush_closed (g : Nat) (files : List FPath) (acc : List (Nat × List FPath))
    (hle : files.length ≤ 128) :
    (if files.length > 0 then acc ++ [(g, files)] else acc) =
      acc ++ indexFrom g (chunk128 files) := by
  rw [chunk128_short files hle]
  by_cases h : files = []
  · subst h; simp [indexFrom]
  · rw [if_pos (List.length_pos.mpr h), if_neg h]
    simp [indexFrom]

theorem copierGo_closed (M : Int) : ∀ (rest : List FPath) (i g fIdx : Nat)
    (files : List FPath) (acc : List (Nat × List FPath)),
    files.length = fIdx → fIdx ≤ 128 →
    copierGo M rest i g fIdx files acc =
      acc ++ indexFrom g (chunk128 (files ++ rest.take (M - i).toNat))
  | [], i, g, fIdx, files, acc => by
    intro hlen hle
    simp only [copierGo, List.take_nil, List.append_nil]
    exact copierFlush_closed g files acc (by omega)
  | fp :: rest, i, g, fIdx, files, acc => by
    intro hlen hle
    by_cases hi : (i : Int) ≥ M
    · have ht : (M - (i : Int)).toNat = 0 := by omega
      rw [ht]
      simp only [copierGo, if_pos hi, List.take_zero, List.append_nil]
      exact copierFlush_closed g files acc (by omega)
    · have ht : (M - (i : Int)).toNat = (M - ((i : Nat) + 1 : Nat) : Int).toNat + 1 := by
        push_cast
        omega
      rw [ht, List.take_succ_cons]
      by_cases hf : fIdx ≥ 128
      · have hfl : files.length = 128 := by omega
        simp only [copierGo, if_neg hi, if_pos hf]
        rw [copierGo_closed M rest (i + 1) (g + 1) 1 [fp] (acc ++ [(g, files)]) rfl (by omega)]
        rw [chunk128_full_head files fp (rest.take (M - ((i : Nat) + 1 : Nat) : Int).toNat) hfl]
        simp [indexFrom, List.append_assoc]
      · simp only [copierGo, if_neg hi, if_neg hf]
        rw [copierGo_closed M rest (i + 1) g (fIdx + 1) (files ++ [fp]) acc
          (by simp [hlen]) (by omega)]
        simp [List.append_assoc]

theorem runCopier_closed (G M : Int) (paths : List FPath) :
    runCopier G M paths = indexFrom 1 (chunk128 (paths.take M.toNat)) := by
  unfold runCopier
  rw [copierGo_closed M paths 0 1 0 [] [] rfl (by omega)]
  simp

/-! ## Lemmas about the copy phase -/

theorem copyFileContents_dry (env : Env) (fs : FS) (src dst : FPath) :
    copyFileContents true env fs src dst = (fs, none) := rfl

theorem copyLoop_srcs (dry : Bool) (env : Env) (sub : FPath) :
    ∀ (srcs : List FPath) (fs : FS),
    ((copyLoop dry env sub srcs fs).2).map (fun a => a.1) = srcs
  | [], fs => by simp [copyLoop]
  | src :: rest, fs => by
    simp [copyLoop, copyLoop_srcs dry env sub rest]

theorem copyLoop_dry_fs (env : Env) (sub : FPath) :
    ∀ (srcs : List FPath) (fs : FS), (copyLoop true env sub srcs fs).1 = fs
  | [], fs => by simp [copyLoop]
  | src :: rest, fs => by
    simp [copyLoop, copyFileContents_dry, copyLoop_dry_fs env sub rest]

theorem copyFilesToGroup_err (dry : Bool) (env : Env) (fs : FS) (srcs : List FPath)
    (dest : FPath) (idx : Nat) :
    (copyFilesToGroup dry env fs srcs dest idx).2.2 = none := rfl

theorem copyFilesToGroup_attempts_srcs (dry : Bool) (env : Env) (fs : FS) (srcs : List FPath)
    (dest : FPath) (idx : Nat) :
    ((copyFilesToGroup dry env fs srcs dest idx).2.1).map (fun a => a.1) = srcs := by
  simp [copyFilesToGroup, copyLoop_srcs]

theorem mkdirAll_files (env : Env) (fs : FS) (p : FPath) :
    ((mkdirAll env fs p).1).files = fs.files := by
  by_cases h : env.mkdirFails p <;> simp [mkdirAll, h]

theorem copyFilesToGroup_dry_files (env : Env) (fs : FS) (srcs : List FPath)
    (dest : FPath) (idx : Nat) :
    ((copyFilesToGroup true env fs srcs dest idx).1).files = fs.files := by
  simp [copyFilesToGroup, copyLoop_dry_fs, mkdirAll_files]

theorem runBatches_proj (dry : Bool) (env : Env) (dest : FPath) :
    ∀ (batches : List (Nat × List FPath)) (fs : FS),
    ((runBatches dry env dest batches fs).2).map
        (fun b => (b.groupIdx, b.attempts.map (fun a => a.1))) = batches
  | [], fs => by simp [runBatches]
  | (idx, srcs) :: rest, fs => by
    simp [runBatches, runBatches_proj dry env dest rest, copyFilesToGroup_attempts_srcs]

theorem runBatches_srcs (dry : Bool) (env : Env) (dest : FPath) :
    ∀ (batches : List (Nat × List FPath)) (fs : FS),
    ((runBatches dry env dest batches fs).2).map
        (fun b => b.attempts.map (fun a => a.1)) = batches.map Prod.snd
  | [], fs => by simp [runBatches]
  | (idx, srcs) :: rest, fs => by
    simp [runBatches, runBatches_srcs dry env dest rest, copyFilesToGroup_attempts_srcs]

theorem runBatches_errs (dry : Bool) (env : Env) (dest : FPath) :
    ∀ (batches : List (Nat × List FPath)) (fs : FS),
    ((runBatches dry env dest batches fs).2).all (fun b => b.copyErr.isNone) = true
  | [], fs => by simp [runBatches]
  | (idx, srcs) :: rest, fs => by
    simp [runBatches, runBatches_errs dry env dest rest, copyFilesToGroup_err]

theorem runBatches_dry_files (env : Env) (dest : FPath) :
    ∀ (batches : List (Nat × List FPath)) (fs : FS),
    ((runBatches true env dest batches fs).1).files = fs.files
  | [], fs => by simp [runBatches]
  | (idx, srcs) :: rest, fs => by
    simp [runBatches, runBatches_dry_files env dest rest, copyFilesToGroup_dry_files]

/-! ## main's interleaved loop equals the batch list executed in order -/

theorem mainGo_eq_runBatches (dry : Bool) (env : Env) (M : Int) (dest : FPath) :
    ∀ (rest : List FPath) (i g fIdx : Nat) (files : List FPath) (fs : FS),
    mainGo dry env M dest rest i g fIdx files fs =
      runBatches dry env dest (copierGo M rest i g fIdx files []) fs
  | [], i, g, fIdx, files, fs => by
    by_cases h : files.length > 0 <;> simp [mainGo, copierGo, h, runBatches]
  | fp :: rest, i, g, fIdx, files, fs => by
    by_cases hi : (i : Int) ≥ M
    · by_cases h : files.length > 0 <;> simp [mainGo, copierGo, hi, h, runBatches]
    · by_cases hf : fIdx ≥ 128
      · simp only [mainGo, copierGo, if_neg hi, if_pos hf, List.nil_append]
        rw [copierGo_append M rest (i + 1) (g + 1) 1 [fp] [(g, files)], List.singleton_append]
        simp [runBatches, mainGo_eq_runBatches dry env M dest rest (i + 1) (g + 1) 1 [fp]]
      · simp only [mainGo, copierGo, if_neg hi, if_neg hf]
        exact mainGo_eq_runBatches dry env M dest rest (i + 1) g (fIdx + 1) (files ++ [fp]) fs

theorem mainRun_eq_runBatches (dry : Bool) (env : Env) (M : Int) (dest : FPath)
    (paths : List FPath) (fs : FS) :
    mainRun dry env M dest paths fs =
      runBatches dry env dest (copierGo M paths 0 1 0 [] []) fs :=
  mainGo_eq_runBatches dry env M dest paths 0 1 0 [] fs

theorem indexFrom_length : ∀ (cs : List (List FPath)) (g : Nat),
    (indexFrom g cs).length = cs.length
  | [], g => by simp [indexFrom]
  | c :: cs, g => by simp [indexFrom, indexFrom_length cs (g + 1)]

theorem indexFrom_mem_snd : ∀ (cs : List (List FPath)) (g : Nat) (b : Nat × List FPath),
    b ∈ indexFrom g cs → b.2 ∈ cs
  | [], g, b => by simp [indexFrom]
  | c :: cs, g, b => by
    intro hb
    rcases List.mem_cons.mp hb with h | h
    · subst h; simp
    · exact List.mem_cons_of_mem _ (indexFrom_mem_snd cs (g + 1) b h)

/-! ## Membership characterisation of the discovery filter -/

theorem visit_mem (kw : FPath) (acc : List FPath) (path : FPath) (isDir : Bool) (p : FPath) :
    p ∈ visit kw acc path isDir ↔
      p ∈ acc ∨ (isDir = false ∧ path = p ∧
        (filepath.Ext (strings.ToLower (filepath.Base p)) = ".wav".toList ∨
         filepath.Ext (strings.ToLower (filepath.Base p)) = ".aiff".toList ∨
         filepath.Ext (strings.ToLower (filepath.Base p)) = ".aif".toList) ∧
        strings.Contains (strings.ToLower (filepath.Base p)) kw = true) := by
  cases isDir with
  | true => simp [visit]
  | false =>
    simp only [visit, Bool.false_eq_true, if_false, true_and]
    by_cases hext : filepath.Ext (strings.ToLower (filepath.Base path)) ≠ ".wav".toList ∧
        filepath.Ext (strings.ToLower (filepath.Base path)) ≠ ".aiff".toList ∧
        filepath.Ext (strings.ToLower (filepath.Base path)) ≠ ".aif".toList
    · rw [if_pos hext]
      constructor
      · exact Or.inl
      · rintro (h | ⟨rfl, hdisj, hcont⟩)
        · exact h
        · exact absurd hdisj (by tauto)
    · rw [if_neg hext]
      have hdisj : filepath.Ext (strings.ToLower (filepath.Base path)) = ".wav".toList ∨
          filepath.Ext (strings.ToLower (filepath.Base path)) = ".aiff".toList ∨
          filepath.Ext (strings.ToLower (filepath.Base path)) = ".aif".toList := by
        tauto
      by_cases hcont : strings.Contains (strings.ToLower (filepath.Base path)) kw = true
      · rw [if_pos hcont]
        simp only [List.mem_append, List.mem_singleton]
        constructor
        · rintro (h | rfl)
          · exact Or.inl h
          · exact Or.inr ⟨rfl, hdisj, hcont⟩
        · rintro (h | ⟨rfl, _, _⟩)
          · exact Or.inl h
          · exact Or.inr rfl
      · rw [if_neg hcont]
        constructor
        · exact Or.inl
        · rintro (h | ⟨rfl, _, hc⟩)
          · exact h
          · exact absurd hc hcont

theorem walkEvents_ok_mem (kw : FPath) :
    ∀ (evs : List WalkEvent) (acc l : List FPath),
    walkEvents kw evs acc = Except.ok (l, none) →
    ∀ p : FPath, p ∈ l ↔ p ∈ acc ∨
      ((∃ e ∈ evs, e.path = p ∧ e.info = some false) ∧
       (filepath.Ext (strings.ToLower (filepath.Base p)) = ".wav".toList ∨
        filepath.Ext (strings.ToLower (filepath.Base p)) = ".aiff".toList ∨
        filepath.Ext (strings.ToLower (filepath.Base p)) = ".aif".toList) ∧
       strings.Contains (strings.ToLower (filepath.Base p)) kw = true)
  | [], acc, l => by
    intro h p
    simp only [walkEvents, Except.ok.injEq, Prod.mk.injEq] at h
    rw [← h.1]
    simp
  | e :: es, acc, l => by
    intro h p
    rw [walkEvents] at h
    cases hinfo : e.info with
    | none => rw [hinfo] at h; simp at h
    | some isDir =>
      rw [hinfo] at h
      rw [walkEvents_ok_mem kw es (visit kw acc e.path isDir) l h p, visit_mem]
      simp only [List.exists_mem_cons_iff, hinfo, Option.some_inj]
      tauto

/-! ## Lemmas about the modelled file map and tilde expansion -/

theorem lookupFile_writeFile_self : ∀ (l : List (FPath × List Nat)) (p : FPath) (v : List Nat),
    lookupFile (writeFile l p v) p = some v
  | [], p, v => by simp [writeFile, lookupFile]
  | (q, w) :: rest, p, v => by
    by_cases h : q = p
    · simp [writeFile, lookupFile, h]
    · simp [writeFile, lookupFile, h, lookupFile_writeFile_self rest p v]

theorem lookupFile_writeFile_other : ∀ (l : List (FPath × List Nat)) (p q' : FPath) (v : List Nat),
    q' ≠ p → lookupFile (writeFile l p v) q' = lookupFile l q'
  | [], p, q', v => by
    intro hne
    have h2 : p ≠ q' := Ne.symm hne
    simp [writeFile, lookupFile, h2]
  | (a, w) :: rest, p, q', v => by
    intro hne
    by_cases hap : a = p
    · subst hap
      have h2 : a ≠ q' := fun hh => hne hh.symm
      simp [writeFile, lookupFile, h2]
    · by_cases haq : a = q'
      · subst haq
        simp [writeFile, lookupFile, hap]
      · simp [writeFile, lookupFile, hap, haq, lookupFile_writeFile_other rest p q' v hne]

theorem expandTilde_ok (home p : FPath) (h : 2 ≤ p.length) :
    ∃ q, expandTilde home p = Except.ok q ∧ q ≠ [] := by
  unfold expandTilde
  rw [if_neg (by omega)]
  by_cases ht : p.take 2 = ['~', '/']
  · rw [if_pos ht]
    cases p with
    | nil => simp at h
    | cons c1 p' =>
      cases p' with
      | nil => simp at h
      | cons c2 t =>
        simp only [List.take_succ_cons, List.take_zero, List.cons.injEq, and_true] at ht
        obtain ⟨h1, h2⟩ := ht
        subst h1; subst h2
        refine ⟨_, rfl, ?_⟩
        simp [strings.ReplaceFirstChar]
  · rw [if_neg ht]
    refine ⟨p, rfl, ?_⟩
    intro hp
    subst hp
    simp at h

/-! ## Concrete fixtures used to instantiate the theorems -/

/-- A filesystem holding one source sample. -/
def fsOne : FS := ⟨[], [("/s/kick.wav".toList, [7, 7])]⟩

/-- An empty filesystem. -/
def emptyFS : FS := ⟨[], []⟩

/-- Oracles under which every mkdir and create succeeds. -/
def noFailEnv : Env := ⟨fun _ => false, fun _ => false⟩

/-- Oracles under which every mkdir fails and every create succeeds. -/
def mkdirFailEnv : Env := ⟨fun _ => true, fun _ => false⟩

/-! ## The claims -/

/-- C1, counterexample: the claim demands that with configured group size
`G = 1` a match list of length 2 (within the max cap 10) is split into
`ceil(2 / 1) = 2` batches, but the copier — whose flush check compares
against the literal 128, not the configured size — produces a single batch
holding both files. -/
theorem C1_counterexample :
    (runCopier 1 10 [['a'], ['b']]).map Prod.snd = [[['a'], ['b']]] ∧
    (runCopier 1 10 [['a'], ['b']]).length ≠ 2 := by
  decide

/-- C1, amended: for every match list whose length does not exceed the max
cap, the copier produces exactly `ceil(L / 128)` batches — `128` being the
hardcoded flush threshold of the loop, used regardless of the configured
group size — every batch except possibly the last holds exactly 128
entries, the last holds `L mod 128` entries (128 when `L` is evenly
divisible), the group indices are `1, 2, …` in order, and concatenating the
batches in that order yields the input list unchanged. -/
theorem C1_grouping (flagGroupSize flagMax : Int) (paths : List FPath)
    (h : (paths.length : Int) ≤ flagMax) :
    (runCopier flagGroupSize flagMax paths).length = (paths.length + 127) / 128 ∧
    ((runCopier flagGroupSize flagMax paths).dropLast).all
      (fun b => b.2.length == 128) = true ∧
    ((runCopier flagGroupSize flagMax paths).getLast?).map (fun b => b.2.length) =
      (if paths = [] then none
       else some (if paths.length % 128 = 0 then 128 else paths.length % 128)) ∧
    ((runCopier flagGroupSize flagMax paths).map Prod.snd).flatten = paths ∧
    (runCopier flagGroupSize flagMax paths).map Prod.fst =
      List.range' 1 (runCopier flagGroupSize flagMax paths).length := by
  have hM : paths.take flagMax.toNat = paths := List.take_of_length_le (by omega)
  have hc : runCopier flagGroupSize flagMax paths = indexFrom 1 (chunk128 paths) := by
    rw [runCopier_closed, hM]
  refine ⟨?_, ?_, ?_, ?_, ?_⟩
  · rw [hc, indexFrom_length, chunk128_length]
  · rw [hc, List.all_eq_true]
    intro b hb
    rw [indexFrom_dropLast] at hb
    have hlen := chunk128_dropLast paths b.2 (indexFrom_mem_snd _ _ _ hb)
    simp [hlen]
  · rw [hc]
    by_cases hp : paths = []
    · subst hp
      simp [chunk128_eq_nil, indexFrom]
    · rw [if_neg hp]
      obtain ⟨cl, hcl⟩ := Option.isSome_iff_exists.mp
        (List.getLast?_isSome.mpr (chunk128_ne_nil paths hp))
      have h2 := indexFrom_getLast?_snd (chunk128 paths) 1
      rw [hcl] at h2
      obtain ⟨b, hb, hb2⟩ := Option.map_eq_some'.mp h2
      rw [hb, Option.map_some', Option.some_inj, hb2, chunk128_getLast paths cl hcl]
  · rw [hc, indexFrom_map_snd, chunk128_flatten]
  · rw [hc, indexFrom_map_fst, indexFrom_length]

/-- C1, witness: the amended grouping theorem applied to a 3-element match
list with max cap 10 and configured group size 1. -/
theorem C1_grouping_witness :
    ((([['a'], ['b'], ['c']] : List FPath).length : Int) ≤ 10) ∧
    ((runCopier 1 10 [['a'], ['b'], ['c']]).map Prod.snd).flatten = [['a'], ['b'], ['c']] :=
  ⟨by decide, (C1_grouping 1 10 [['a'], ['b'], ['c']] (by decide)).2.2.2.1⟩

/-- C3: with a configured maximum `M` not exceeding the match list length,
the batches the copier builds contain exactly the first `M` paths in
discovery order — so at most `M` files are ever assigned to a batch, files
beyond the `M`-th are never batched, the loop's result only depends on the
first `M` paths (it stops as soon as `M` files have been considered, even
mid-batch), and the copy phase of main attempts exactly those `M` files. -/
theorem C3_cap (flagGroupSize : Int) (M : Nat) (paths : List FPath)
    (dry : Bool) (env : Env) (dest : FPath) (fs : FS)
    (h : M ≤ paths.length) :
    ((runCopier flagGroupSize (M : Int) paths).map Prod.snd).flatten = paths.take M ∧
    (((runCopier flagGroupSize (M : Int) paths).map Prod.snd).flatten).length = M ∧
    runCopier flagGroupSize (M : Int) paths = runCopier flagGroupSize (M : Int) (paths.take M) ∧
    (((mainRun dry env (M : Int) dest paths fs).2).map
        (fun b => b.attempts.map (fun a => a.1))).flatten = paths.take M := by
  have htn : ((M : Int)).toNat = M := by omega
  have hc : runCopier flagGroupSize (M : Int) paths = indexFrom 1 (chunk128 (paths.take M)) := by
    rw [runCopier_closed, htn]
  have hflat : ((runCopier flagGroupSize (M : Int) paths).map Prod.snd).flatten = paths.take M := by
    rw [hc, indexFrom_map_snd, chunk128_flatten]
  refine ⟨hflat, ?_, ?_, ?_⟩
  · rw [hflat]
    simp only [List.length_take]
    omega
  · rw [hc, runCopier_closed, htn, List.take_take, min_self]
  · rw [mainRun_eq_runBatches, runBatches_srcs]
    have hrc : copierGo (M : Int) paths 0 1 0 [] [] = runCopier flagGroupSize (M : Int) paths := rfl
    rw [hrc, hflat]

/-- C3, witness: the cap theorem applied with `M = 1` to a 2-element match
list: only the first file reaches a batch and only it is attempted. -/
theorem C3_cap_witness :
    ((1 : Nat) ≤ ([['a'], ['b']] : List FPath).length) ∧
    (((mainRun false noFailEnv ((1 : Nat) : Int) ['d'] [['a'], ['b']] emptyFS).2).map
        (fun b => b.attempts.map (fun a => a.1))).flatten = ([['a'], ['b']] : List FPath).take 1 :=
  ⟨by decide, (C3_cap 128 1 [['a'], ['b']] false noFailEnv ['d'] emptyFS (by decide)).2.2.2⟩

/-- C4: with the dry-run flag enabled, the per-file copy routine returns
immediately without touching the filesystem, and consequently the whole
grouped-copy phase of main leaves every destination file's content
unchanged, for every match list (destination subfolders may still be
recorded by the mkdir step, which dry-run does not skip). -/
theorem C4_dry_run (env : Env) (flagMax : Int) (dest : FPath) (paths : List FPath)
    (fs : FS) (src dst : FPath) :
    copyFileContents true env fs src dst = (fs, none) ∧
    ((mainRun true env flagMax dest paths fs).1).files = fs.files := by
  refine ⟨rfl, ?_⟩
  rw [mainRun_eq_runBatches]
  exact runBatches_dry_files env dest _ fs

/-- C5: if some per-file copy in some batch fails, still every batch is
processed and, within every batch, every file is attempted in order with
its own source/destination pair — a failure never aborts the rest of the
batch or the following batches. -/
theorem C5_failure_isolation (dry : Bool) (env : Env) (dest : FPath)
    (batches : List (Nat × List FPath)) (fs : FS)
    (hfail : ∃ b ∈ (runBatches dry env dest batches fs).2, ∃ a ∈ b.attempts, a.2.2 ≠ none) :
    ((runBatches dry env dest batches fs).2).map
        (fun b => (b.groupIdx, b.attempts.map (fun a => a.1))) = batches :=
  runBatches_proj dry env dest batches fs

/-- C5, witness: a batch whose first copy fails (missing source) followed by
one that succeeds; both are attempted. -/
theorem C5_failure_isolation_witness :
    (∃ b ∈ (runBatches false noFailEnv "/d".toList
        [(1, ["/gone.wav".toList, "/s/kick.wav".toList])] fsOne).2,
      ∃ a ∈ b.attempts, a.2.2 ≠ none) ∧
    ((runBatches false noFailEnv "/d".toList
        [(1, ["/gone.wav".toList, "/s/kick.wav".toList])] fsOne).2).map
        (fun b => (b.groupIdx, b.attempts.map (fun a => a.1))) =
      [(1, ["/gone.wav".toList, "/s/kick.wav".toList])] :=
  ⟨by decide, C5_failure_isolation false noFailEnv "/d".toList
    [(1, ["/gone.wav".toList, "/s/kick.wav".toList])] fsOne (by decide)⟩

/-- C10: `copyFilesToGroup` returns `nil` for every input — subfolder
creation failures and per-file failures are never propagated — so the
batch-error records main's logging branches inspect are always empty. -/
theorem C10_always_nil (dry : Bool) (env : Env) (fs : FS) (srcs : List FPath)
    (dest : FPath) (idx : Nat) (flagMax : Int) (paths : List FPath) :
    (copyFilesToGroup dry env fs srcs dest idx).2.2 = none ∧
    ((mainRun dry env flagMax dest paths fs).2).all (fun b => b.copyErr.isNone) = true := by
  refine ⟨rfl, ?_⟩
  rw [mainRun_eq_runBatches]
  exact runBatches_errs dry env dest _ fs

/-- C2: a path is in the list a successful walk returns if and only if the
walk visited it as a regular file, the extension of its lower-cased
filename is `.wav`, `.aiff` or `.aif`, and its lower-cased filename
contains the lower-cased keyword as a contiguous substring — soundness and
completeness of the discovery filter. -/
theorem C2_discovery (K : FPath) (evs : List WalkEvent) (l : List FPath) (p : FPath)
    (h : walkEvents (strings.ToLower K) evs [] = Except.ok (l, none)) :
    p ∈ l ↔
      ((∃ e ∈ evs, e.path = p ∧ e.info = some false) ∧
       (filepath.Ext (strings.ToLower (filepath.Base p)) = ".wav".toList ∨
        filepath.Ext (strings.ToLower (filepath.Base p)) = ".aiff".toList ∨
        filepath.Ext (strings.ToLower (filepath.Base p)) = ".aif".toList) ∧
       strings.Contains (strings.ToLower (filepath.Base p)) (strings.ToLower K) = true) := by
  rw [walkEvents_ok_mem (strings.ToLower K) evs [] l h p]
  simp

/-- C2, witness: a walk over a directory, a matching `.wav`, a `.wav` that
misses the keyword and a `.txt` that matches it returns exactly the first
file; the characterisation is evaluated at that file. -/
theorem C2_discovery_witness :
    ("/s/kick_808.wav".toList ∈ ["/s/kick_808.wav".toList] ↔
      ((∃ e ∈ [WalkEvent.mk "/s".toList (some true) none,
               WalkEvent.mk "/s/kick_808.wav".toList (some false) none,
               WalkEvent.mk "/s/snare.wav".toList (some false) none,
               WalkEvent.mk "/s/kick.txt".toList (some false) none],
          e.path = "/s/kick_808.wav".toList ∧ e.info = some false) ∧
       (filepath.Ext (strings.ToLower (filepath.Base "/s/kick_808.wav".toList)) = ".wav".toList ∨
        filepath.Ext (strings.ToLower (filepath.Base "/s/kick_808.wav".toList)) = ".aiff".toList ∨
        filepath.Ext (strings.ToLower (filepath.Base "/s/kick_808.wav".toList)) = ".aif".toList) ∧
       strings.Contains (strings.ToLower (filepath.Base "/s/kick_808.wav".toList))
         (strings.ToLower "Kick".toList) = true)) :=
  C2_discovery "Kick".toList
    [WalkEvent.mk "/s".toList (some true) none,
     WalkEvent.mk "/s/kick_808.wav".toList (some false) none,
     WalkEvent.mk "/s/snare.wav".toList (some false) none,
     WalkEvent.mk "/s/kick.txt".toList (some false) none]
    ["/s/kick_808.wav".toList] "/s/kick_808.wav".toList rfl

/-- C6, counterexample: a walk in which a directory's `readDirNames` fails
(a traversal error) — the claim demands that discovery then fails with an
error and nothing is copied, but `visit` ignores the error argument and
returns `nil`, so the walk silently continues, discovery returns the
partial match list with a `nil` error, and the copy phase runs on it (an
attempt is recorded). -/
theorem C6_counterexample :
    (∃ ev ∈ [WalkEvent.mk "/s".toList (some true) (some "readdir failed"),
             WalkEvent.mk "/s/kick.wav".toList (some false) none], ev.err ≠ none) ∧
    findMatchingFiles "/s".toList false "kick".toList
        [WalkEvent.mk "/s".toList (some true) (some "readdir failed"),
         WalkEvent.mk "/s/kick.wav".toList (some false) none] =
      Except.ok (["/s/kick.wav".toList], none) ∧
    (mainRun false noFailEnv 1000 "/d".toList ["/s/kick.wav".toList] emptyFS).2 ≠ [] :=
  ⟨by decide, rfl, by decide⟩

/-- C6, amended: only a failed absolute-path resolution makes the run stop
with an error before any copying (`os.Exit(1)` with the filesystem
untouched).  A per-entry stat error instead makes `visit` dereference the
nil `os.FileInfo`, so the program panics — still before any copying — and a
directory-read traversal error is passed to `visit`, which ignores it and
returns `nil`, so the walk silently continues past it. -/
theorem C6_error_behaviour (home src kw dst : FPath) (evs rest : List WalkEvent)
    (dry : Bool) (env : Env) (M : Int) (fs : FS) (p : FPath) (oerr : Option String)
    (emsg : String) (acc : List FPath)
    (hsrc : 2 ≤ src.length) (hkw : kw ≠ []) (hdst : 2 ≤ dst.length) :
    programFull home src kw dst true evs dry env M fs = Outcome.exited fs ∧
    walkEvents (strings.ToLower kw) (WalkEvent.mk p none oerr :: rest) acc =
      Except.error nilPanicMsg ∧
    walkEvents (strings.ToLower kw) (WalkEvent.mk p (some true) (some emsg) :: rest) acc =
      walkEvents (strings.ToLower kw) rest acc ∧
    programFull home src kw dst false (WalkEvent.mk p none oerr :: rest) dry env M fs =
      Outcome.panicked nilPanicMsg fs := by
  have hsne : src ≠ [] := by intro hh; subst hh; simp at hsrc
  have hdne : dst ≠ [] := by intro hh; subst hh; simp at hdst
  obtain ⟨q, hq, hqne⟩ := expandTilde_ok home src hsrc
  obtain ⟨r, hr, hrne⟩ := expandTilde_ok home dst hdst
  refine ⟨?_, rfl, rfl, ?_⟩
  · simp [programFull, hsne, hkw, hdne, hq, hr, findMatchingFiles, hqne]
  · simp [programFull, hsne, hkw, hdne, hq, hr, findMatchingFiles, hqne, walkEvents]

/-- C6, witness: the amended error-behaviour theorem at concrete paths, a
stat-failing entry and a read-failing directory. -/
theorem C6_error_behaviour_witness :
    (programFull "/h".toList "/s".toList "k".toList "/d".toList true [] false noFailEnv 0
        emptyFS = Outcome.exited emptyFS) ∧
    walkEvents (strings.ToLower "k".toList)
        (WalkEvent.mk "/x".toList none (some "stat failed") :: []) [] =
      Except.error nilPanicMsg ∧
    walkEvents (strings.ToLower "k".toList)
        (WalkEvent.mk "/x".toList (some true) (some "readdir failed") :: []) [] =
      walkEvents (strings.ToLower "k".toList) [] [] ∧
    programFull "/h".toList "/s".toList "k".toList "/d".toList false
        (WalkEvent.mk "/x".toList none (some "stat failed") :: []) false noFailEnv 0 emptyFS =
      Outcome.panicked nilPanicMsg emptyFS :=
  C6_error_behaviour "/h".toList "/s".toList "k".toList "/d".toList [] [] false noFailEnv 0
    emptyFS "/x".toList (some "stat failed") "readdir failed" [] (by decide) (by decide)
    (by decide)

/-- C7, counterexample: under oracles where the `group_1` subfolder cannot
be created, the claim demands that the batch's copy step is abandoned with
no per-file copies attempted — but `copyFilesToGroup` discards the
`os.MkdirAll` error and still attempts the batch's (single) file. -/
theorem C7_counterexample :
    (mkdirAll mkdirFailEnv fsOne (filepath.Join "/d".toList "group_1".toList)).2 ≠ none ∧
    ((copyFilesToGroup false mkdirFailEnv fsOne ["/s/kick.wav".toList] "/d".toList 1).2.1).length
      = 1 := by
  decide

/-- C7, amended: when the destination subfolder cannot be created, the
`os.MkdirAll` error is silently discarded rather than logged — the per-file
copies of the batch are all still attempted (on the unchanged filesystem)
instead of the batch being abandoned, `copyFilesToGroup` still returns
`nil`, and the run proceeds to the final summary. -/
theorem C7_mkdir_ignored (dry : Bool) (env : Env) (fs : FS) (srcs : List FPath)
    (dest : FPath) (idx : Nat)
    (h : env.mkdirFails (filepath.Join dest (("group_" ++ toString idx).toList)) = true) :
    (copyFilesToGroup dry env fs srcs dest idx).1 =
      (copyLoop dry env (filepath.Join dest (("group_" ++ toString idx).toList)) srcs fs).1 ∧
    ((copyFilesToGroup dry env fs srcs dest idx).2.1).map (fun a => a.1) = srcs ∧
    (copyFilesToGroup dry env fs srcs dest idx).2.2 = none := by
  refine ⟨?_, copyFilesToGroup_attempts_srcs dry env fs srcs dest idx, rfl⟩
  have hm : mkdirAll env fs (filepath.Join dest (("group_" ++ toString idx).toList)) =
      (fs, some "mkdir failed") := by
    rw [mkdirAll, if_pos h]
  rw [copyFilesToGroup, hm]

/-- C7, witness: the amended theorem under oracles where every mkdir fails,
with a one-file batch. -/
theorem C7_mkdir_ignored_witness :
    (mkdirFailEnv.mkdirFails (filepath.Join "/d".toList (("group_" ++ toString 1).toList))
      = true) ∧
    ((copyFilesToGroup false mkdirFailEnv fsOne ["/s/kick.wav".toList] "/d".toList 1).2.1).map
        (fun a => a.1) = ["/s/kick.wav".toList] :=
  ⟨by decide, (C7_mkdir_ignored false mkdirFailEnv fsOne ["/s/kick.wav".toList] "/d".toList 1
    (by decide)).2.1⟩

/-- A successful live copy: with the source present, the destination
creatable and distinct from the source, the destination is truncated and
then receives the source's bytes, with no error. -/
theorem copyFileContents_live (env : Env) (fs : FS) (src dst : FPath) (content : List Nat)
    (hsd : src ≠ dst) (hsrc : lookupFile fs.files src = some content)
    (hcr : env.createFails dst = false) :
    copyFileContents false env fs src dst =
      ({ fs with files := writeFile (writeFile fs.files dst []) dst content }, none) := by
  simp only [copyFileContents, Bool.false_eq_true, if_false, hsrc, hcr]
  rw [lookupFile_writeFile_other fs.files dst src [] hsd, hsrc]

/-- C8: copying the same existing source twice to the same destination (in
live mode, with the destination creatable and distinct from the source)
reports no error either time — a pre-existing destination file from the
first copy is silently overwritten — and leaves the destination's bytes
identical to the source's bytes. -/
theorem C8_overwrite (env : Env) (fs : FS) (src dst : FPath) (content : List Nat)
    (hsd : src ≠ dst)
    (hsrc : lookupFile fs.files src = some content)
    (hcr : env.createFails dst = false) :
    (copyFileContents false env fs src dst).2 = none ∧
    (copyFileContents false env (copyFileContents false env fs src dst).1 src dst).2 = none ∧
    lookupFile ((copyFileContents false env
        (copyFileContents false env fs src dst).1 src dst).1).files dst = some content := by
  have h1 := copyFileContents_live env fs src dst content hsd hsrc hcr
  have hlook : lookupFile (writeFile (writeFile fs.files dst []) dst content) src
      = some content := by
    rw [lookupFile_writeFile_other _ dst src content hsd,
      lookupFile_writeFile_other fs.files dst src [] hsd, hsrc]
  have h2 := copyFileContents_live env
    { fs with files := writeFile (writeFile fs.files dst []) dst content } src dst content hsd
    hlook hcr
  refine ⟨?_, ?_, ?_⟩
  · simp [h1]
  · simp only [h1]
    simp [h2]
  · simp only [h1]
    simp [h2, lookupFile_writeFile_self]

/-- C8, witness: the overwrite theorem at a concrete source file with
content `[7, 7]` and a distinct destination. -/
theorem C8_overwrite_witness :
    (("/s/kick.wav".toList : FPath) ≠ "/d/group_1/kick.wav".toList) ∧
    lookupFile ((copyFileContents false noFailEnv
        (copyFileContents false noFailEnv fsOne "/s/kick.wav".toList
          "/d/group_1/kick.wav".toList).1
        "/s/kick.wav".toList "/d/group_1/kick.wav".toList).1).files
      "/d/group_1/kick.wav".toList = some [7, 7] :=
  ⟨by decide, (C8_overwrite noFailEnv fsOne "/s/kick.wav".toList "/d/group_1/kick.wav".toList
    [7, 7] (by decide) (by decide) (by decide)).2.2⟩

/-- C9: a one-character source path (or, with a long-enough source, a
one-character explicitly supplied destination path) makes the startup
`p[:2]` slice panic, so the program ends in a runtime panic with the
filesystem untouched, before any discovery or copying. -/
theorem C9_short_path_panic (home kw dst src2 : FPath) (c d : Char) (absErr : Bool)
    (evs : List WalkEvent) (dry : Bool) (env : Env) (M : Int) (fs : FS)
    (hkw : kw ≠ []) (hsrc2 : 2 ≤ src2.length) :
    programFull home [c] kw dst absErr evs dry env M fs =
      Outcome.panicked slicePanicMsg fs ∧
    programFull home src2 kw [d] absErr evs dry env M fs =
      Outcome.panicked slicePanicMsg fs := by
  constructor
  · have h1 : ([c] : FPath) ≠ [] := by simp
    have he : expandTilde home [c] = Except.error slicePanicMsg := by
      simp [expandTilde]
    simp [programFull, h1, hkw, he]
  · have hsne : src2 ≠ [] := by intro hh; subst hh; simp at hsrc2
    obtain ⟨q, hq, hqne⟩ := expandTilde_ok home src2 hsrc2
    have hd1 : ([d] : FPath) ≠ [] := by simp
    have he : expandTilde home [d] = Except.error slicePanicMsg := by
      simp [expandTilde]
    simp [programFull, hsne, hkw, hd1, hq, he]

/-- C9, witness: the panic theorem at a one-character source `"x"` and at a
two-character source with one-character destination `"y"`. -/
theorem C9_short_path_panic_witness :
    (programFull "/h".toList ['x'] "k".toList "/d".toList false [] false noFailEnv 0 emptyFS =
      Outcome.panicked slicePanicMsg emptyFS) ∧
    programFull "/h".toList "/s".toList "k".toList ['y'] false [] false noFailEnv 0 emptyFS =
      Outcome.panicked slicePanicMsg emptyFS :=
  C9_short_path_panic "/h".toList "k".toList "/d".toList "/s".toList 'x' 'y' false [] false
    noFailEnv 0 emptyFS (by decide) (by decide)

end SampleSorter
